import Mathlib

/- Verification development for the Bact-Sim bacterial ecosystem simulation
(src/main.rs).

Modelling conventions, used throughout:

* Scalars (`f32` in the source) are embedded as exact rationals `ℚ`; the
  claims under study are order/bookkeeping properties that do not depend on
  rounding.  The predator-steering geometry (trigonometry, `normalize`) is
  embedded over `ℝ` in the `Steer` section further below.
* The source compares Euclidean distances `a.distance(b) < r` where `r > 0`
  (a size plus a positive constant, or a positive sense radius).  We compare
  squared distances against `r^2`, which is equivalent for `r ≥ 0` because
  `sqrt` is strictly monotone on nonnegatives; this keeps the embedding
  exactly computable.
* Randomness: every random draw of the source is an explicit input.  The two
  `rand` primitives used by `DNA::mutate` are modelled with their panic
  conditions: `Rng::gen_bool(p)` panics unless `0 ≤ p ≤ 1`, and
  `Rng::gen_range(lo..hi)` panics unless `lo < hi`; a panic is `Option.none`.
* `Bacterium::new` draws an angle `θ` uniformly and sets the velocity to
  `(cos θ, sin θ)`; we model that draw as directly supplying the resulting
  heading vector (the claims never constrain it).
-/

namespace BactSim

/-- World position / velocity vector (`macroquad::Vec2`), exact coordinates. -/
abbrev Vec2 := ℚ × ℚ

/-- Squared Euclidean distance between two points; stands for
`a.distance(b)` squared (see the conventions above). -/
def distSq (a b : Vec2) : ℚ := (a.1 - b.1) ^ 2 + (a.2 - b.2) ^ 2

/-- Componentwise vector negation (`-v` on `macroquad::Vec2`). -/
def vneg (v : Vec2) : Vec2 := (-v.1, -v.2)

/-- Rust `f32::clamp(lo, hi)` for `lo ≤ hi` (the source always calls it with
constant `lo < hi`): below `lo` gives `lo`, above `hi` gives `hi`. -/
def fclamp (x lo hi : ℚ) : ℚ := if x < lo then lo else if hi < x then hi else x

/-- Mutable simulation parameters (struct `SimulationParams`). -/
structure SimulationParams where
  food_growth_rate : ℚ
  max_food : ℕ
  mutation_rate : ℚ
  mutation_strength : ℚ
  reproduction_threshold : ℚ
  initial_energy : ℚ
  speed_multiplier : ℚ
  predator_count : ℚ
  predator_reproduction_threshold : ℚ
deriving DecidableEq

/-- RGBA color as stored in a genome (`macroquad::Color`). -/
structure Color where
  r : ℚ
  g : ℚ
  b : ℚ
  a : ℚ
deriving DecidableEq

/-- Heritable genome (struct `DNA`). -/
structure DNA where
  speed : ℚ
  size : ℚ
  sense_radius : ℚ
  color : Color
deriving DecidableEq

/-- Model of `Rng::gen_bool(p)`: returns the provided draw; panics (`none`) when the
probability is outside `[0, 1]`, as in the `rand` crate. -/
def genBool (p : ℚ) (draw : Bool) : Option Bool :=
  if 0 ≤ p ∧ p ≤ 1 then some draw else none

/-- Model of `Rng::gen_range(lo..hi)`: returns the provided draw; panics (`none`) on
an empty range (`lo ≥ hi`), as in the `rand` crate. -/
def genRange (lo hi draw : ℚ) : Option ℚ :=
  if lo < hi then some draw else none

/-- The nine random draws consumed by one call of `DNA::mutate`, in source
order: one `gen_bool` and one optional `gen_range` per scalar trait, then one
`gen_range` per color channel. -/
structure MutDraws where
  speedFlip : Bool
  speedDelta : ℚ
  sizeFlip : Bool
  sizeDelta : ℚ
  senseFlip : Bool
  senseDelta : ℚ
  rDelta : ℚ
  gDelta : ℚ
  bDelta : ℚ
deriving DecidableEq

/-- Embedding of `DNA::mutate` (src/main.rs lines 111-145): each scalar trait is, when its
`gen_bool(mutation_rate)` fires, multiplied by `1 + change` with `change`
drawn from `(-strength, strength)` and clamped to `[0.1, 100.0]`, and is
passed through unchanged otherwise; each color channel is unconditionally
perturbed by a draw from `(-0.05, 0.05)` and clamped to `[0.2, 1.0]`; alpha
is the constant `0.9`.  `none` models a panic of a `rand` primitive. -/
def DNA.mutate (dna : DNA) (params : SimulationParams) (d : MutDraws) :
    Option DNA :=
  (genBool params.mutation_rate d.speedFlip).bind fun f1 =>
  (if f1 then
      (genRange (-params.mutation_strength) params.mutation_strength
        d.speedDelta).map
        (fun change => fclamp (dna.speed * (1 + change)) 0.1 100)
    else some dna.speed).bind fun new_speed =>
  (genBool params.mutation_rate d.sizeFlip).bind fun f2 =>
  (if f2 then
      (genRange (-params.mutation_strength) params.mutation_strength
        d.sizeDelta).map
        (fun change => fclamp (dna.size * (1 + change)) 0.1 100)
    else some dna.size).bind fun new_size =>
  (genBool params.mutation_rate d.senseFlip).bind fun f3 =>
  (if f3 then
      (genRange (-params.mutation_strength) params.mutation_strength
        d.senseDelta).map
        (fun change => fclamp (dna.sense_radius * (1 + change)) 0.1 100)
    else some dna.sense_radius).bind fun new_sense =>
  (genRange (-(5/100)) (5/100) d.rDelta).bind fun dr =>
  (genRange (-(5/100)) (5/100) d.gDelta).bind fun dg =>
  (genRange (-(5/100)) (5/100) d.bDelta).bind fun db =>
  some ⟨new_speed, new_size, new_sense,
    ⟨fclamp (dna.color.r + dr) 0.2 1, fclamp (dna.color.g + dg) 0.2 1,
     fclamp (dna.color.b + db) 0.2 1, 0.9⟩⟩

/-- Claim C3 as stated: every genome returned by `mutate`, whatever the input
genome and parameters, has its scalar traits in `[0.1, 100]`, its color
channels in `[0.2, 1]` and alpha `0.9`. -/
def MutateAlwaysClamped : Prop :=
  ∀ (dna : DNA) (params : SimulationParams) (d : MutDraws) (g : DNA),
    DNA.mutate dna params d = some g →
      (0.1 ≤ g.speed ∧ g.speed ≤ 100) ∧
      (0.1 ≤ g.size ∧ g.size ≤ 100) ∧
      (0.1 ≤ g.sense_radius ∧ g.sense_radius ≤ 100) ∧
      (0.2 ≤ g.color.r ∧ g.color.r ≤ 1) ∧
      (0.2 ≤ g.color.g ∧ g.color.g ≤ 1) ∧
      (0.2 ≤ g.color.b ∧ g.color.b ≤ 1) ∧
      g.color.a = 0.9

/-- Claim C7 as stated: `mutate` succeeds for every input genome and every
mutation rate and strength. -/
def MutateTotal : Prop :=
  ∀ (dna : DNA) (params : SimulationParams) (d : MutDraws),
    (DNA.mutate dna params d).isSome = true

/-- Prey agent (struct `Bacterium`): position, velocity, genome, energy, age. -/
structure Bacterium where
  pos : Vec2
  vel : Vec2
  dna : DNA
  energy : ℚ
  age : ℚ
deriving DecidableEq

/-- Predator agent (struct `Predator`): fixed physical parameters. -/
structure Predator where
  pos : Vec2
  vel : Vec2
  energy : ℚ
  speed : ℚ
  size : ℚ
  sense_radius : ℚ
deriving DecidableEq

instance : Inhabited Bacterium :=
  ⟨⟨(0, 0), (1, 0), ⟨1, 3, 20, ⟨0.5, 0.5, 0.5, 0.9⟩⟩, 100, 0⟩⟩

/-- Body of the food-consumption loop of the per-prey pass (src/main.rs lines
598-605), for one food item `(i, f)`: a food index not yet in the eaten-food
set whose distance to the prey is below `size + 2.0` grants `+30` energy and
is marked eaten. -/
def eatFoodStep (st : Bacterium × Finset ℕ) (p : ℕ × Vec2) :
    Bacterium × Finset ℕ :=
  if p.1 ∉ st.2 ∧ distSq st.1.pos p.2 < (st.1.dna.size + 2) ^ 2 then
    ({ st.1 with energy := st.1.energy + 30 }, insert p.1 st.2)
  else st

/-- One prey's full food-consumption loop (src/main.rs lines 597-605):
iterate over the enumerated food list threading the eaten-food set. -/
def eatFood (b : Bacterium) (food : List Vec2) (eaten : Finset ℕ) :
    Bacterium × Finset ℕ :=
  food.enum.foldl eatFoodStep (b, eaten)

/-- The food-consumption thread of the per-prey pass (src/main.rs lines
594-629 restricted to lines 597-605): each prey in order runs its food loop
against the food list and the eaten-food set left by its predecessors.  The
death/reproduction tail of the loop body (lines 607-628, modelled by
`deathRepro` below) neither reads nor writes the eaten-food set, any prey's
position or size, or the food list, so this projection is faithful. -/
def foodPassStep (food : List Vec2) (st : List Bacterium × Finset ℕ)
    (b : Bacterium) : List Bacterium × Finset ℕ :=
  let r := eatFood b food st.2
  (st.1 ++ [r.1], r.2)

/-- The per-prey fold of `foodPassStep` (see the comment above it). -/
def foodPass (food : List Vec2) (bs : List Bacterium) (eaten : Finset ℕ) :
    List Bacterium × Finset ℕ :=
  bs.foldl (foodPassStep food) ([], eaten)

/-- Predator-contact test of the per-prey pass (src/main.rs lines 608-615):
the prey is eaten when it is within `p.size + b.dna.size` of any predator
(the source loop breaks at the first hit; `List.any` is that loop). -/
def isEaten (preds : List Predator) (b : Bacterium) : Bool :=
  preds.any (fun p =>
    decide (distSq b.pos p.pos < (p.size + b.dna.size) ^ 2))

/-- Death-check and reproduction tail of the per-prey pass loop body
(src/main.rs lines 607-628) for the prey at index `idx`: an eaten prey has
its index inserted into the eaten-prey set; a prey that is not eaten and is
above the reproduction threshold halves its energy and appends one offspring
(same position, reversed velocity, mutated genome, the parent's halved
energy, age zero) to the pending-births buffer.  `none` propagates a panic
of `DNA::mutate`'s rand primitives. -/
def deathRepro (preds : List Predator) (params : SimulationParams)
    (d : MutDraws) (idx : ℕ) (b : Bacterium) (eatenPrey : Finset ℕ)
    (births : List Bacterium) :
    Option (Bacterium × Finset ℕ × List Bacterium) :=
  let e := isEaten preds b
  let eaten' := if e then insert idx eatenPrey else eatenPrey
  if e = false ∧ b.energy > params.reproduction_threshold then
    match b.dna.mutate params d with
    | none => none
    | some g =>
      let parent : Bacterium := { b with energy := b.energy * 0.5 }
      let offspring : Bacterium :=
        { pos := b.pos, vel := vneg b.vel, dna := g,
          energy := parent.energy, age := 0 }
      some (parent, eaten', births ++ [offspring])
  else some (b, eaten', births)

/-- Body of the prey-consumption loop of the per-predator pass (src/main.rs
lines 636-643), for one prey `(i, b)`: a prey index not yet in the
eaten-prey set within `p.size + b.dna.size` of the predator grants `+80`
energy and is marked eaten. -/
def predEatStep (st : Predator × Finset ℕ) (ib : ℕ × Bacterium) :
    Predator × Finset ℕ :=
  if ib.1 ∉ st.2 ∧ distSq st.1.pos ib.2.pos < (st.1.size + ib.2.dna.size) ^ 2
  then ({ st.1 with energy := st.1.energy + 80 }, insert ib.1 st.2)
  else st

/-- One predator's full prey-consumption loop (src/main.rs lines 635-643). -/
def predEat (p : Predator) (bs : List Bacterium) (eaten : Finset ℕ) :
    Predator × Finset ℕ :=
  bs.enum.foldl predEatStep (p, eaten)

/-- The prey-consumption thread of the per-predator pass (src/main.rs lines
632-658 restricted to lines 635-643): each predator in order runs its prey
loop against the prey list and the eaten-prey set left by the per-prey pass
and by earlier predators.  The predator's movement update and its
reproduction tail touch neither the eaten-prey set nor any other predator's
energy, so this projection is faithful for the capture-credit accounting. -/
def predEatPassStep (bs : List Bacterium) (st : List Predator × Finset ℕ)
    (p : Predator) : List Predator × Finset ℕ :=
  let r := predEat p bs st.2
  (st.1 ++ [r.1], r.2)

/-- The per-predator fold of `predEatPassStep` (see the comment above it). -/
def predEatPass (preds : List Predator) (bs : List Bacterium)
    (eaten : Finset ℕ) : List Predator × Finset ℕ :=
  preds.foldl (predEatPassStep bs) ([], eaten)

/-- Fixed capacity of the statistics history (const `MAX_HISTORY`). -/
def MAX_HISTORY : ℕ := 300

/-- Rolling statistics histories (struct `Stats`). -/
structure Stats where
  population_history : List ℚ
  avg_speed_history : List ℚ
  avg_size_history : List ℚ
  predator_history : List ℚ
deriving DecidableEq

/-- Rust `Vec::remove(0)`: drops the first element, panicking (`none`) on an
empty vector. -/
def remove0 (l : List ℚ) : Option (List ℚ) :=
  match l with
  | [] => none
  | _ :: t => some t

/-- Embedding of `Stats::push` (src/main.rs lines 57-70): append one sample to each of the
four series; if the population series then exceeds `MAX_HISTORY`, drop the
oldest entry of every series. -/
def Stats.push (s : Stats) (pop speed size predators : ℚ) : Option Stats := do
  let s1 : Stats :=
    ⟨s.population_history ++ [pop], s.avg_speed_history ++ [speed],
     s.avg_size_history ++ [size], s.predator_history ++ [predators]⟩
  if s1.population_history.length > MAX_HISTORY then
    let a ← remove0 s1.population_history
    let b ← remove0 s1.avg_speed_history
    let c ← remove0 s1.avg_size_history
    let d ← remove0 s1.predator_history
    some ⟨a, b, c, d⟩
  else
    some s1

/-- Rust `Vec::swap_remove(i)`: overwrite position `i` with the last element
and pop the last element.  The source only calls it under an `i < len`
guard, which `removeEaten` below reproduces. -/
def swapRemove (l : List Bacterium) (i : ℕ) : List Bacterium :=
  match l.getLast? with
  | none => l
  | some x => (l.set i x).dropLast

/-- Eaten-prey removal of the commit phase (src/main.rs lines 669-676):
collect the eaten indices, sort them descending, and `swap_remove` each one
that is still in bounds.  Sorting ascending and reversing is the source's
descending sort. -/
def removeEaten (bs : List Bacterium) (eaten : Finset ℕ) : List Bacterium :=
  ((eaten.sort (· ≤ ·)).reverse).foldl
    (fun l i => if i < l.length then swapRemove l i else l) bs

/-- Eaten-food removal of the commit phase (src/main.rs lines 660-667): keep
exactly the food items whose index is not in the eaten-food set, in order
(the source pushes the survivors into a fresh vector). -/
def removeEatenFood (food : List Vec2) (eaten : Finset ℕ) : List Vec2 :=
  (food.enum.filter (fun p => p.1 ∉ eaten)).map Prod.snd

/-- The random draws consumed by one `Bacterium::new` (src/main.rs lines
156-168 and `DNA::random`, lines 96-109): a position (drawn by the caller), a
heading (the source draws an angle `θ` and uses `(cos θ, sin θ)`; we model
the draw as the resulting heading vector), and the six `DNA::random` draws. -/
structure FreshDraws where
  pos : Vec2
  heading : Vec2
  speed : ℚ
  size : ℚ
  sense_radius : ℚ
  r : ℚ
  g : ℚ
  b : ℚ
deriving DecidableEq

/-- Embedding of `DNA::random` (src/main.rs lines 96-109) applied to its draws: the draw
ranges (`1..3`, `3..8`, `20..60`, `0.2..1` per channel) constrain the inputs,
not this constructor; alpha is the constant `0.9`. -/
def DNA.random (f : FreshDraws) : DNA :=
  ⟨f.speed, f.size, f.sense_radius, ⟨f.r, f.g, f.b, 0.9⟩⟩

/-- Embedding of `Bacterium::new` (src/main.rs lines 157-168): fresh random genome and
heading, the given position and initial energy, age zero. -/
def Bacterium.new (f : FreshDraws) (initial_energy : ℚ) : Bacterium :=
  ⟨f.pos, f.heading, DNA.random f, initial_energy, 0⟩

/-- Commit phase and extinction failsafe of the tick (src/main.rs lines
660-694): rebuild the food list without the eaten indices, remove the eaten
prey, append both pending-offspring buffers, prune agents with energy `≤ 0`,
and, if the prey list ended up empty, reseed it with exactly 10 freshly
randomized prey carrying the configured initial energy.  Predators have no
reseed branch. -/
def commitPhase (food : List Vec2) (bacteria : List Bacterium)
    (predators : List Predator) (eatenFood eatenPrey : Finset ℕ)
    (preyBirths : List Bacterium) (predBirths : List Predator)
    (params : SimulationParams) (fresh : ℕ → FreshDraws) :
    List Vec2 × List Bacterium × List Predator :=
  let food' := removeEatenFood food eatenFood
  let bacteria1 := removeEaten bacteria eatenPrey ++ preyBirths
  let predators1 := predators ++ predBirths
  let bacteria2 := bacteria1.filter (fun b => decide (b.energy > 0))
  let predators2 := predators1.filter (fun p => decide (p.energy > 0))
  let bacteria3 :=
    if bacteria2.isEmpty then
      (List.range 10).map (fun k => Bacterium.new (fresh k)
        params.initial_energy)
    else bacteria2
  (food', bacteria3, predators2)

/-- Rust `f32 as usize` applied to the growth rate: truncation toward zero,
saturating at `0` for negative values; for the nonnegative rates of the UI
this is `floor`. -/
def toAdd (q : ℚ) : ℕ := (⌊q⌋).toNat

/-- Food-growth step of the tick (src/main.rs lines 577-586): only when the
standing food count is below `max_food`, append `food_growth_rate as usize`
food items at random positions. -/
def foodGrowth (food : List Vec2) (params : SimulationParams)
    (fresh : ℕ → Vec2) : List Vec2 :=
  if food.length < params.max_food then
    food ++ (List.range (toAdd params.food_growth_rate)).map fresh
  else food

/-- The capped-food part of claim C9 as stated: the standing food count never
exceeds `max_food` after the growth step. -/
def FoodNeverExceedsMax : Prop :=
  ∀ (food : List Vec2) (params : SimulationParams) (fresh : ℕ → Vec2),
    (foodGrowth food params fresh).length ≤ params.max_food

/-! Real-valued embedding of the predator steering (`Predator::update`,
src/main.rs lines 273-296).  The steering arithmetic is genuinely real
(square roots, `atan2`, `cos`, `sin`), so this section lives over `ℝ`; the
definitions are noncomputable but exact. -/

/-- Real plane vector, for the steering geometry. -/
abbrev Vec2R := ℝ × ℝ

/-- Euclidean distance (`Vec2::distance`). -/
noncomputable def distR (a b : Vec2R) : ℝ :=
  Real.sqrt ((a.1 - b.1) ^ 2 + (a.2 - b.2) ^ 2)

/-- Embedding of `Vec2::normalize`: the vector divided by its length.  The source value is
undefined (NaN) for the zero vector; here division by zero yields zero.  No
claim touches that point. -/
noncomputable def normalizeR (v : Vec2R) : Vec2R :=
  (v.1 / Real.sqrt (v.1 ^ 2 + v.2 ^ 2), v.2 / Real.sqrt (v.1 ^ 2 + v.2 ^ 2))

/-- Standard two-argument arctangent (`f32::atan2`, `y.atan2(x)`). -/
noncomputable def atan2 (y x : ℝ) : ℝ :=
  if 0 < x then Real.arctan (y / x)
  else if x < 0 then
    (if 0 ≤ y then Real.arctan (y / x) + Real.pi
     else Real.arctan (y / x) - Real.pi)
  else
    (if 0 < y then Real.pi / 2
     else if y < 0 then -(Real.pi / 2) else 0)

/-- Heading jitter (src/main.rs lines 291-294): perturb the heading angle by
`δ` and rebuild the unit heading. -/
noncomputable def jitterVec (v : Vec2R) (δ : ℝ) : Vec2R :=
  (Real.cos (atan2 v.2 v.1 + δ), Real.sin (atan2 v.2 v.1 + δ))

/-- Pursuit blend (src/main.rs lines 287-289): add `0.3` times the unit
vector toward the target to the heading and renormalize. -/
noncomputable def blendToward (vel pos target : Vec2R) : Vec2R :=
  normalizeR
    (vel.1 + 0.3 * (normalizeR (target.1 - pos.1, target.2 - pos.2)).1,
     vel.2 + 0.3 * (normalizeR (target.1 - pos.1, target.2 - pos.2)).2)

/-- Prey as seen by the predator's hunting scan, which reads only its
position (src/main.rs line 279). -/
structure BacteriumR where
  pos : Vec2R

/-- Predator agent over `ℝ` (struct `Predator`). -/
structure PredatorR where
  pos : Vec2R
  vel : Vec2R
  energy : ℝ
  speed : ℝ
  size : ℝ
  sense_radius : ℝ

/-- Body of the nearest-prey scan (src/main.rs lines 278-284) for one prey:
a strict improvement on the running nearest distance within the sense radius
replaces the candidate.  `none` is the initial `nearest_dist = f32::MAX`,
`nearest_pos = None` state, which every actual distance beats. -/
noncomputable def scanStep (ppos : Vec2R) (sense : ℝ)
    (st : Option (ℝ × Vec2R)) (b : BacteriumR) : Option (ℝ × Vec2R) :=
  match st with
  | none =>
    if distR ppos b.pos < sense then some (distR ppos b.pos, b.pos) else none
  | some nd =>
    if distR ppos b.pos < sense ∧ distR ppos b.pos < nd.1 then
      some (distR ppos b.pos, b.pos)
    else some nd

/-- Nearest-prey scan (src/main.rs lines 275-284). -/
noncomputable def scanNearest (ppos : Vec2R) (sense : ℝ)
    (bs : List BacteriumR) : Option (ℝ × Vec2R) :=
  bs.foldl (scanStep ppos sense) none

/-- Hunting/wandering steering of `Predator::update` (src/main.rs lines
273-296): when the prey list is nonempty, chase the nearest prey within the
sense radius if one exists, otherwise jitter the heading; when the prey list
is empty the whole block is skipped and the velocity is left unchanged.  The
movement/bounce and metabolism portions of `update` do not touch the
velocity after this block. -/
noncomputable def huntSteer (p : PredatorR) (bs : List BacteriumR) (δ : ℝ) :
    Vec2R :=
  if bs.isEmpty then p.vel
  else
    match scanNearest p.pos p.sense_radius bs with
    | some td => blendToward p.vel p.pos td.2
    | none => jitterVec p.vel δ

/-- Claim C8 as stated: whenever no prey lies within the predator's sense
radius, the jitter (with draw `δ` from `±0.15` rad) is applied to the
heading. -/
def JitterWheneverNoPrey : Prop :=
  ∀ (p : PredatorR) (bs : List BacteriumR) (δ : ℝ),
    -0.15 ≤ δ → δ < 0.15 →
    (∀ b ∈ bs, ¬ distR p.pos b.pos < p.sense_radius) →
    huntSteer p bs δ = jitterVec p.vel δ

/-- A sample real-valued predator at the origin, heading `(1, 0)`, with the
source's fixed physical parameters. -/
noncomputable def predR8 : PredatorR := ⟨(0, 0), (1, 0), 150, 5/2, 12, 100⟩

/-- A sample prey position at `(300, 400)` — distance 500 from the origin,
outside the sense radius 100. -/
noncomputable def bactR8 : BacteriumR := ⟨(300, 400)⟩

/-! Concrete sample values used by the witness theorems. -/

/-- An in-range sample genome. -/
def dna0 : DNA := ⟨2, 5, 30, ⟨0.5, 0.5, 0.5, 0.9⟩⟩

/-- A sample genome whose speed `200` violates the trait clamp range. -/
def dnaBig : DNA := ⟨200, 5, 30, ⟨0.5, 0.5, 0.5, 0.9⟩⟩

/-- Default simulation parameters (`SimulationParams::default`,
src/main.rs lines 23-37). -/
def params0 : SimulationParams := ⟨2, 1000, 0.1, 0.1, 150, 100, 1, 5, 200⟩

/-- Default parameters with mutation rate `0` (reachable from the UI). -/
def paramsRate0 : SimulationParams := ⟨2, 1000, 0, 0.1, 150, 100, 1, 5, 200⟩

/-- Default parameters with mutation rate `1` and strength `0` (both
reachable from the UI sliders up to the rate bound). -/
def paramsStr0 : SimulationParams := ⟨2, 1000, 1, 0, 150, 100, 1, 5, 200⟩

/-- Draws with every coin flip `false` and every delta `0`. -/
def drawsQuiet : MutDraws := ⟨false, 0, false, 0, false, 0, 0, 0, 0⟩

/-- Draws whose speed coin flip fires. -/
def drawsSpeedHit : MutDraws := ⟨true, 0, false, 0, false, 0, 0, 0, 0⟩

/-- A statistics state with one sample in each series. -/
def stats0 : Stats := ⟨[0], [0], [0], [0]⟩

/-- A sample bundle of `Bacterium::new` draws. -/
def freshSample : FreshDraws := ⟨(5, 5), (1, 0), 2, 5, 30, 1/2, 1/2, 1/2⟩

/-- Default parameters with `max_food = 2` (the ceiling is UI-configurable;
any small ceiling exhibits the overshoot). -/
def paramsTwoMax : SimulationParams := ⟨2, 2, 0.1, 0.1, 150, 100, 1, 5, 200⟩

/-- A sample prey at the origin with size-5 genome and energy 100. -/
def bact1 : Bacterium := ⟨(0, 0), (1, 0), ⟨2, 5, 30, ⟨0.5, 0.5, 0.5, 0.9⟩⟩,
  100, 0⟩

/-- A sample prey at `(1, 0)` with size-3 genome and energy 50. -/
def bact2 : Bacterium := ⟨(1, 0), (0, 1), ⟨2, 3, 30, ⟨0.5, 0.5, 0.5, 0.9⟩⟩,
  50, 0⟩

/-- A sample prey with energy 200, above the default reproduction
threshold. -/
def bactRepro : Bacterium := ⟨(2, 3), (1, 0), ⟨2, 5, 30,
  ⟨0.5, 0.5, 0.5, 0.9⟩⟩, 200, 7⟩

/-- A sample predator at the origin with the source's fixed physical
parameters (`Predator::new`: energy 150, speed 2.5, size 12, sense radius
100). -/
def pred0 : Predator := ⟨(0, 0), (1, 0), 150, 5/2, 12, 100⟩

/-! Theorems. -/

/-- Interior bounds of `fclamp`, for `lo ≤ hi`. -/
theorem fclamp_mem (x lo hi : ℚ) (h : lo ≤ hi) :
    lo ≤ fclamp x lo hi ∧ fclamp x lo hi ≤ hi := by
  unfold fclamp
  split_ifs with h1 h2
  · exact ⟨le_refl lo, h⟩
  · exact ⟨h, le_refl hi⟩
  · exact ⟨le_of_not_lt h1, le_of_not_lt h2⟩

/-- Success characterization of `genBool`. -/
theorem genBool_eq_some {p : ℚ} {draw b : Bool} :
    genBool p draw = some b ↔ (0 ≤ p ∧ p ≤ 1) ∧ b = draw := by
  unfold genBool
  split_ifs with h
  · simp [h, eq_comm]
  · simp [h]

/-- Success characterization of `genRange`. -/
theorem genRange_eq_some {lo hi draw c : ℚ} :
    genRange lo hi draw = some c ↔ lo < hi ∧ c = draw := by
  unfold genRange
  split_ifs with h
  · simp [h, eq_comm]
  · simp [h]

/-- Claim C3 fails as stated: a genome whose speed `200` is already outside
the clamp range passes through `mutate` unchanged when the speed coin flip
does not fire, so the returned speed `200` exceeds `100`. -/
theorem c3_counterexample : ¬ MutateAlwaysClamped := by
  intro h
  have heval : DNA.mutate dnaBig paramsRate0 drawsQuiet = some dnaBig := by
    norm_num [DNA.mutate, genBool, genRange, fclamp, dnaBig, paramsRate0,
      drawsQuiet]
  have hb := h dnaBig paramsRate0 drawsQuiet dnaBig heval
  exact absurd hb.1.2 (by norm_num [dnaBig])

/-- C3 (amended): the scalar traits of any genome returned by `mutate` stay
in `[0.1, 100]` provided the input genome's traits already lie there (a
trait whose coin flip fires is clamped there unconditionally; one whose flip
does not fire is passed through); the color channels land in `[0.2, 1]` and
alpha is `0.9` with no hypothesis on the input channels. -/
theorem c3_mutate_clamped (dna : DNA) (params : SimulationParams)
    (d : MutDraws) (g : DNA)
    (hsp1 : 0.1 ≤ dna.speed) (hsp2 : dna.speed ≤ 100)
    (hsz1 : 0.1 ≤ dna.size) (hsz2 : dna.size ≤ 100)
    (hse1 : 0.1 ≤ dna.sense_radius) (hse2 : dna.sense_radius ≤ 100)
    (hg : DNA.mutate dna params d = some g) :
    (0.1 ≤ g.speed ∧ g.speed ≤ 100) ∧
    (0.1 ≤ g.size ∧ g.size ≤ 100) ∧
    (0.1 ≤ g.sense_radius ∧ g.sense_radius ≤ 100) ∧
    (0.2 ≤ g.color.r ∧ g.color.r ≤ 1) ∧
    (0.2 ≤ g.color.g ∧ g.color.g ≤ 1) ∧
    (0.2 ≤ g.color.b ∧ g.color.b ≤ 1) ∧
    g.color.a = 0.9 := by
  rw [DNA.mutate] at hg
  obtain ⟨f1, hf1, hg⟩ := Option.bind_eq_some.mp hg
  obtain ⟨-, rfl⟩ := genBool_eq_some.mp hf1
  obtain ⟨ns, hns, hg⟩ := Option.bind_eq_some.mp hg
  obtain ⟨f2, hf2, hg⟩ := Option.bind_eq_some.mp hg
  obtain ⟨-, rfl⟩ := genBool_eq_some.mp hf2
  obtain ⟨nsz, hnsz, hg⟩ := Option.bind_eq_some.mp hg
  obtain ⟨f3, hf3, hg⟩ := Option.bind_eq_some.mp hg
  obtain ⟨-, rfl⟩ := genBool_eq_some.mp hf3
  obtain ⟨nse, hnse, hg⟩ := Option.bind_eq_some.mp hg
  obtain ⟨dr, hdr, hg⟩ := Option.bind_eq_some.mp hg
  obtain ⟨-, rfl⟩ := genRange_eq_some.mp hdr
  obtain ⟨dg, hdg, hg⟩ := Option.bind_eq_some.mp hg
  obtain ⟨-, rfl⟩ := genRange_eq_some.mp hdg
  obtain ⟨db, hdb, hg⟩ := Option.bind_eq_some.mp hg
  obtain ⟨-, rfl⟩ := genRange_eq_some.mp hdb
  obtain rfl := Option.some.inj hg
  have Hsp : 0.1 ≤ ns ∧ ns ≤ 100 := by
    cases hf : d.speedFlip with
    | false =>
      simp [hf] at hns
      exact hns ▸ ⟨hsp1, hsp2⟩
    | true =>
      simp [hf, Option.map_eq_some', genRange_eq_some] at hns
      obtain ⟨c, -, hc⟩ := hns
      exact hc ▸ fclamp_mem _ _ _ (by norm_num)
  have Hsz : 0.1 ≤ nsz ∧ nsz ≤ 100 := by
    cases hf : d.sizeFlip with
    | false =>
      simp [hf] at hnsz
      exact hnsz ▸ ⟨hsz1, hsz2⟩
    | true =>
      simp [hf, Option.map_eq_some', genRange_eq_some] at hnsz
      obtain ⟨c, -, hc⟩ := hnsz
      exact hc ▸ fclamp_mem _ _ _ (by norm_num)
  have Hse : 0.1 ≤ nse ∧ nse ≤ 100 := by
    cases hf : d.senseFlip with
    | false =>
      simp [hf] at hnse
      exact hnse ▸ ⟨hse1, hse2⟩
    | true =>
      simp [hf, Option.map_eq_some', genRange_eq_some] at hnse
      obtain ⟨c, -, hc⟩ := hnse
      exact hc ▸ fclamp_mem _ _ _ (by norm_num)
  exact ⟨Hsp, Hsz, Hse, fclamp_mem _ _ _ (by norm_num),
    fclamp_mem _ _ _ (by norm_num), fclamp_mem _ _ _ (by norm_num), rfl⟩

/-- Witness for `c3_mutate_clamped` at the in-range genome `dna0` with the
default parameters and quiet draws. -/
theorem c3_mutate_clamped_witness :
    DNA.mutate dna0 params0 drawsQuiet = some dna0 ∧
    (0.1 ≤ dna0.speed ∧ dna0.speed ≤ 100) ∧
    (0.1 ≤ dna0.size ∧ dna0.size ≤ 100) ∧
    (0.1 ≤ dna0.sense_radius ∧ dna0.sense_radius ≤ 100) ∧
    (0.2 ≤ dna0.color.r ∧ dna0.color.r ≤ 1) ∧
    (0.2 ≤ dna0.color.g ∧ dna0.color.g ≤ 1) ∧
    (0.2 ≤ dna0.color.b ∧ dna0.color.b ≤ 1) ∧
    dna0.color.a = 0.9 := by
  have heval : DNA.mutate dna0 params0 drawsQuiet = some dna0 := by
    norm_num [DNA.mutate, genBool, genRange, fclamp, dna0, params0,
      drawsQuiet]
  exact ⟨heval, c3_mutate_clamped dna0 params0 drawsQuiet dna0
    (by norm_num [dna0]) (by norm_num [dna0]) (by norm_num [dna0])
    (by norm_num [dna0]) (by norm_num [dna0]) (by norm_num [dna0]) heval⟩

/-- Claim C7 fails as stated: with mutation strength `0` (reachable from the
UI slider) and a firing coin flip, `gen_range(-0.0..0.0)` samples an empty
range, which panics in the `rand` crate; `mutate` is not total in the
mutation strength. -/
theorem c7_counterexample : ¬ MutateTotal := by
  intro h
  have ht := h dna0 paramsStr0 drawsSpeedHit
  rw [DNA.mutate] at ht
  norm_num [genBool, genRange, paramsStr0, drawsSpeedHit] at ht

/-- C7 (amended): `mutate` is total whenever the mutation rate lies in
`[0, 1]` and the mutation strength is positive — under those parameter
bounds every `gen_bool` and `gen_range` draw succeeds and every clamp is
total, for every input genome and every draw values. -/
theorem c7_mutate_total (dna : DNA) (params : SimulationParams)
    (d : MutDraws) (h0 : 0 ≤ params.mutation_rate)
    (h1 : params.mutation_rate ≤ 1) (hs : 0 < params.mutation_strength) :
    (DNA.mutate dna params d).isSome = true := by
  rw [DNA.mutate]
  have hb : ∀ dr, genBool params.mutation_rate dr = some dr := by
    intro dr
    unfold genBool
    exact if_pos ⟨h0, h1⟩
  have hr : ∀ x, genRange (-params.mutation_strength)
      params.mutation_strength x = some x := by
    intro x
    unfold genRange
    exact if_pos (neg_lt_self hs)
  have hc : ∀ x, genRange (-(5/100 : ℚ)) (5/100) x = some x := by
    intro x
    unfold genRange
    exact if_pos (by norm_num)
  cases d.speedFlip <;> cases d.sizeFlip <;> cases d.senseFlip <;>
    simp [hb, hr, hc]

/-- Witness for `c7_mutate_total` at the default parameters (rate `0.1`,
strength `0.1`) with a firing speed coin flip. -/
theorem c7_mutate_total_witness :
    (0 ≤ params0.mutation_rate ∧ params0.mutation_rate ≤ 1 ∧
      0 < params0.mutation_strength) ∧
    (DNA.mutate dna0 params0 drawsSpeedHit).isSome = true :=
  ⟨by norm_num [params0],
   c7_mutate_total dna0 params0 drawsSpeedHit (by norm_num [params0])
     (by norm_num [params0]) (by norm_num [params0])⟩

/-- Evaluation helper: `Vec::remove(0)` on a freshly appended (hence
nonempty) vector always succeeds and drops the head. -/
theorem remove0_append (l : List ℚ) (x : ℚ) :
    remove0 (l ++ [x]) = some ((l ++ [x]).tail) := by
  cases l <;> rfl

/-- C4: `Stats::push` preserves the equal-length invariant of the four
series and their `MAX_HISTORY` bound, appending the sample and, exactly when
the capacity would be exceeded, dropping the oldest entry of every series
(FIFO). -/
theorem c4_stats_push (s : Stats) (p q r t : ℚ)
    (h1 : s.avg_speed_history.length = s.population_history.length)
    (h2 : s.avg_size_history.length = s.population_history.length)
    (h3 : s.predator_history.length = s.population_history.length)
    (hle : s.population_history.length ≤ MAX_HISTORY) :
    ∃ s', s.push p q r t = some s' ∧
      s'.avg_speed_history.length = s'.population_history.length ∧
      s'.avg_size_history.length = s'.population_history.length ∧
      s'.predator_history.length = s'.population_history.length ∧
      s'.population_history.length ≤ MAX_HISTORY ∧
      (s.population_history.length < MAX_HISTORY →
        s' = ⟨s.population_history ++ [p], s.avg_speed_history ++ [q],
              s.avg_size_history ++ [r], s.predator_history ++ [t]⟩) ∧
      (s.population_history.length = MAX_HISTORY →
        s' = ⟨(s.population_history ++ [p]).tail,
              (s.avg_speed_history ++ [q]).tail,
              (s.avg_size_history ++ [r]).tail,
              (s.predator_history ++ [t]).tail⟩) := by
  by_cases hlt : s.population_history.length < MAX_HISTORY
  · have hc : ¬ ((s.population_history ++ [p]).length > MAX_HISTORY) := by
      simp only [List.length_append, List.length_singleton]
      omega
    refine ⟨⟨s.population_history ++ [p], s.avg_speed_history ++ [q],
      s.avg_size_history ++ [r], s.predator_history ++ [t]⟩, ?_, ?_, ?_, ?_,
      ?_, fun _ => rfl, fun habs => absurd habs (Nat.ne_of_lt hlt)⟩
    · simp only [Stats.push]
      rw [if_neg hc]
    · simp [h1]
    · simp [h2]
    · simp [h3]
    · simp only [List.length_append, List.length_singleton]
      omega
  · have heq : s.population_history.length = MAX_HISTORY :=
      Nat.le_antisymm hle (Nat.le_of_not_lt hlt)
    have hc : (s.population_history ++ [p]).length > MAX_HISTORY := by
      simp only [List.length_append, List.length_singleton]
      omega
    refine ⟨⟨(s.population_history ++ [p]).tail,
      (s.avg_speed_history ++ [q]).tail, (s.avg_size_history ++ [r]).tail,
      (s.predator_history ++ [t]).tail⟩, ?_, ?_, ?_, ?_, ?_,
      fun habs => absurd habs (Nat.lt_irrefl _ ∘ (heq ▸ ·)), fun _ => rfl⟩
    · simp only [Stats.push]
      rw [if_pos hc]
      simp [remove0_append]
    · simp [List.length_tail, h1]
    · simp [List.length_tail, h2]
    · simp [List.length_tail, h3]
    · simp only [List.length_tail, List.length_append, List.length_singleton]
      omega

/-- Witness for `c4_stats_push` at a one-sample state. -/
theorem c4_stats_push_witness :
    (stats0.avg_speed_history.length = stats0.population_history.length ∧
     stats0.avg_size_history.length = stats0.population_history.length ∧
     stats0.predator_history.length = stats0.population_history.length ∧
     stats0.population_history.length ≤ MAX_HISTORY) ∧
    (∃ s', stats0.push 1 2 3 4 = some s' ∧
      s'.avg_speed_history.length = s'.population_history.length ∧
      s'.avg_size_history.length = s'.population_history.length ∧
      s'.predator_history.length = s'.population_history.length ∧
      s'.population_history.length ≤ MAX_HISTORY ∧
      (stats0.population_history.length < MAX_HISTORY →
        s' = ⟨stats0.population_history ++ [1],
              stats0.avg_speed_history ++ [2],
              stats0.avg_size_history ++ [3],
              stats0.predator_history ++ [4]⟩) ∧
      (stats0.population_history.length = MAX_HISTORY →
        s' = ⟨(stats0.population_history ++ [1]).tail,
              (stats0.avg_speed_history ++ [2]).tail,
              (stats0.avg_size_history ++ [3]).tail,
              (stats0.predator_history ++ [4]).tail⟩)) :=
  ⟨⟨rfl, rfl, rfl, by simp [stats0, MAX_HISTORY]⟩,
   c4_stats_push stats0 1 2 3 4 rfl rfl rfl
     (by simp [stats0, MAX_HISTORY])⟩

/-- Loop invariant of the food-consumption loop: the eaten-food set only
grows, the quantity `energy - 30 * |eaten|` is conserved (each insertion is
accompanied by exactly one `+30` credit), and the prey's position and genome
are untouched. -/
theorem eatFood_loop_inv (l : List (ℕ × Vec2)) (st : Bacterium × Finset ℕ) :
    st.2 ⊆ (List.foldl eatFoodStep st l).2 ∧
    (List.foldl eatFoodStep st l).1.energy
        - 30 * (((List.foldl eatFoodStep st l).2.card : ℚ))
      = st.1.energy - 30 * (st.2.card : ℚ) ∧
    (List.foldl eatFoodStep st l).1.pos = st.1.pos ∧
    (List.foldl eatFoodStep st l).1.dna = st.1.dna := by
  induction l generalizing st with
  | nil => exact ⟨Finset.Subset.refl _, by rw [List.foldl_nil], rfl, rfl⟩
  | cons hd tl ih =>
    rw [List.foldl_cons]
    obtain ⟨ih1, ih2, ih3, ih4⟩ := ih (eatFoodStep st hd)
    have hstep : st.2 ⊆ (eatFoodStep st hd).2 ∧
        (eatFoodStep st hd).1.energy - 30 * (((eatFoodStep st hd).2.card : ℚ))
          = st.1.energy - 30 * (st.2.card : ℚ) ∧
        (eatFoodStep st hd).1.pos = st.1.pos ∧
        (eatFoodStep st hd).1.dna = st.1.dna := by
      unfold eatFoodStep
      split_ifs with hcond
      · refine ⟨Finset.subset_insert _ _, ?_, rfl, rfl⟩
        rw [Finset.card_insert_of_not_mem hcond.1]
        push_cast
        ring
      · exact ⟨Finset.Subset.refl _, by ring, rfl, rfl⟩
    refine ⟨hstep.1.trans ih1, ?_, ih3.trans hstep.2.2.1,
      ih4.trans hstep.2.2.2⟩
    rw [ih2, hstep.2.1]

/-- One prey's food loop: the eaten set grows, and the prey's energy gain is
exactly `30` per food index it newly marked. -/
theorem eatFood_spec (b : Bacterium) (food : List Vec2) (eaten : Finset ℕ) :
    eaten ⊆ (eatFood b food eaten).2 ∧
    (eatFood b food eaten).1.energy
      = b.energy + 30 * ((((eatFood b food eaten).2.card : ℚ))
          - (eaten.card : ℚ)) ∧
    (eatFood b food eaten).1.pos = b.pos ∧
    (eatFood b food eaten).1.dna = b.dna := by
  obtain ⟨h1, h2, h3, h4⟩ := eatFood_loop_inv food.enum (b, eaten)
  exact ⟨h1, by unfold eatFood; linarith [h2], h3, h4⟩

/-- Pass-level invariant: folding the food loop over a prey list grows the
eaten set, and the total energy of the output prey equals the total input
energy plus `30` per index added to the eaten set. -/
theorem foodPass_go (food : List Vec2) (bs : List Bacterium)
    (acc : List Bacterium × Finset ℕ) :
    acc.2 ⊆ (List.foldl (foodPassStep food) acc bs).2 ∧
    ((List.foldl (foodPassStep food) acc bs).1.map Bacterium.energy).sum
        - 30 * (((List.foldl (foodPassStep food) acc bs).2.card : ℚ))
      = (acc.1.map Bacterium.energy).sum + (bs.map Bacterium.energy).sum
        - 30 * (acc.2.card : ℚ) := by
  induction bs generalizing acc with
  | nil => exact ⟨Finset.Subset.refl _, by simp⟩
  | cons b tl ih =>
    rw [List.foldl_cons]
    obtain ⟨ih1, ih2⟩ := ih (foodPassStep food acc b)
    obtain ⟨h1, h2, -, -⟩ := eatFood_spec b food acc.2
    refine ⟨Finset.Subset.trans h1 ih1, ?_⟩
    rw [ih2]
    show ((acc.1 ++ [(eatFood b food acc.2).1]).map Bacterium.energy).sum
        + _ - _ = _
    rw [List.map_append, List.sum_append]
    simp only [List.map_cons, List.map_nil, List.sum_cons, List.sum_nil,
      List.map_cons, List.sum_cons]
    rw [h2]
    show _ - 30 * (((eatFood b food acc.2).2.card : ℚ)) = _
    ring

/-- C1: first-touch exclusivity of food consumption.  Over the whole
per-prey pass the eaten-food set only grows and the prey's total energy
rises by exactly `30` for each index added to the set — every eaten food
index funds exactly one `+30` credit to exactly one prey, and an index
marked by an earlier prey can never be eaten again in the same tick.  In
particular, with a single food item and two prey both within range, the
first prey gains `30`, the second gains nothing. -/
theorem c1_first_touch_food (food : List Vec2) (bs : List Bacterium)
    (F0 : Finset ℕ) (f : Vec2) (b1 b2 : Bacterium)
    (h1 : distSq b1.pos f < (b1.dna.size + 2) ^ 2)
    (h2 : distSq b2.pos f < (b2.dna.size + 2) ^ 2) :
    F0 ⊆ (foodPass food bs F0).2 ∧
    ((foodPass food bs F0).1.map Bacterium.energy).sum
      = (bs.map Bacterium.energy).sum
        + 30 * ((((foodPass food bs F0).2 \ F0).card : ℚ)) ∧
    (foodPass [f] [b1, b2] ∅).1.map Bacterium.energy
      = [b1.energy + 30, b2.energy] := by
  have hsub : F0 ⊆ (foodPass food bs F0).2 := (foodPass_go food bs ([], F0)).1
  have hsum : ((foodPass food bs F0).1.map Bacterium.energy).sum
      - 30 * (((foodPass food bs F0).2.card : ℚ))
    = (bs.map Bacterium.energy).sum - 30 * (F0.card : ℚ) := by
    have h := (foodPass_go food bs ([], F0)).2
    simpa [foodPass] using h
  refine ⟨hsub, ?_, ?_⟩
  · have hle : F0.card ≤ (foodPass food bs F0).2.card :=
      Finset.card_le_card hsub
    have hcard : (((foodPass food bs F0).2 \ F0).card : ℚ)
        = (((foodPass food bs F0).2.card : ℚ)) - (F0.card : ℚ) := by
      rw [Finset.card_sdiff hsub, Nat.cast_sub hle]
    rw [hcard]
    linarith [hsum]
  · simp [foodPass, foodPassStep, eatFood, eatFoodStep, h1, h2]

/-- Witness for `c1_first_touch_food`: one food item at the origin, two prey
within range; exactly one `+30` credit is applied. -/
theorem c1_first_touch_food_witness :
    distSq bact1.pos (0, 0) < (bact1.dna.size + 2) ^ 2 ∧
    distSq bact2.pos (0, 0) < (bact2.dna.size + 2) ^ 2 ∧
    (foodPass [(0, 0)] [bact1, bact2] ∅).1.map Bacterium.energy
      = [bact1.energy + 30, bact2.energy] := by
  have h1 : distSq bact1.pos (0, 0) < (bact1.dna.size + 2) ^ 2 := by
    norm_num [distSq, bact1]
  have h2 : distSq bact2.pos (0, 0) < (bact2.dna.size + 2) ^ 2 := by
    norm_num [distSq, bact2]
  exact ⟨h1, h2,
    (c1_first_touch_food [(0, 0)] [bact1, bact2] ∅ (0, 0) bact1 bact2
      h1 h2).2.2⟩

/-- Loop invariant of the predator's prey-consumption loop: the eaten-prey
set only grows and `energy - 80 * |eaten|` is conserved. -/
theorem predEat_loop_inv (l : List (ℕ × Bacterium)) (st : Predator × Finset ℕ) :
    st.2 ⊆ (List.foldl predEatStep st l).2 ∧
    (List.foldl predEatStep st l).1.energy
        - 80 * (((List.foldl predEatStep st l).2.card : ℚ))
      = st.1.energy - 80 * (st.2.card : ℚ) := by
  induction l generalizing st with
  | nil => exact ⟨Finset.Subset.refl _, by rw [List.foldl_nil]⟩
  | cons hd tl ih =>
    rw [List.foldl_cons]
    obtain ⟨ih1, ih2⟩ := ih (predEatStep st hd)
    have hstep : st.2 ⊆ (predEatStep st hd).2 ∧
        (predEatStep st hd).1.energy
            - 80 * (((predEatStep st hd).2.card : ℚ))
          = st.1.energy - 80 * (st.2.card : ℚ) := by
      unfold predEatStep
      split_ifs with hcond
      · refine ⟨Finset.subset_insert _ _, ?_⟩
        rw [Finset.card_insert_of_not_mem hcond.1]
        push_cast
        ring
      · exact ⟨Finset.Subset.refl _, by ring⟩
    exact ⟨hstep.1.trans ih1, by rw [ih2, hstep.2]⟩

/-- One predator's prey loop: the eaten set grows and the predator's energy
gain is exactly `80` per prey index it newly marked. -/
theorem predEat_spec (p : Predator) (bs : List Bacterium) (eaten : Finset ℕ) :
    eaten ⊆ (predEat p bs eaten).2 ∧
    (predEat p bs eaten).1.energy
      = p.energy + 80 * ((((predEat p bs eaten).2.card : ℚ))
          - (eaten.card : ℚ)) := by
  obtain ⟨h1, h2⟩ := predEat_loop_inv bs.enum (p, eaten)
  exact ⟨h1, by unfold predEat; linarith [h2]⟩

/-- Pass-level invariant for the per-predator pass. -/
theorem predEatPass_go (bs : List Bacterium) (preds : List Predator)
    (acc : List Predator × Finset ℕ) :
    acc.2 ⊆ (List.foldl (predEatPassStep bs) acc preds).2 ∧
    ((List.foldl (predEatPassStep bs) acc preds).1.map Predator.energy).sum
        - 80 * (((List.foldl (predEatPassStep bs) acc preds).2.card : ℚ))
      = (acc.1.map Predator.energy).sum + (preds.map Predator.energy).sum
        - 80 * (acc.2.card : ℚ) := by
  induction preds generalizing acc with
  | nil => exact ⟨Finset.Subset.refl _, by simp⟩
  | cons p tl ih =>
    rw [List.foldl_cons]
    obtain ⟨ih1, ih2⟩ := ih (predEatPassStep bs acc p)
    obtain ⟨h1, h2⟩ := predEat_spec p bs acc.2
    refine ⟨Finset.Subset.trans h1 ih1, ?_⟩
    rw [ih2]
    show ((acc.1 ++ [(predEat p bs acc.2).1]).map Predator.energy).sum
        + _ - _ = _
    rw [List.map_append, List.sum_append]
    simp only [List.map_cons, List.map_nil, List.sum_cons, List.sum_nil]
    rw [h2]
    show _ - 80 * (((predEat p bs acc.2).2.card : ℚ)) = _
    ring

/-- C10: a prey index already in the eaten-prey set when the per-predator
pass starts (for instance because the prey died to predator contact in the
per-prey pass) funds no `+80` capture reward: over the pass, the total
predator energy rises by exactly `80` per index newly added to the set, and
an already-marked prey is skipped by every predator regardless of distance —
its removal yields no energy to any predator. -/
theorem c10_no_reward_for_marked_prey (preds : List Predator)
    (bs : List Bacterium) (E0 : Finset ℕ) :
    E0 ⊆ (predEatPass preds bs E0).2 ∧
    ((predEatPass preds bs E0).1.map Predator.energy).sum
      = (preds.map Predator.energy).sum
        + 80 * ((((predEatPass preds bs E0).2 \ E0).card : ℚ)) ∧
    (∀ (p : Predator) (b : Bacterium), predEat p [b] {0} = (p, {0})) := by
  have hsub : E0 ⊆ (predEatPass preds bs E0).2 :=
    (predEatPass_go bs preds ([], E0)).1
  have hsum : ((predEatPass preds bs E0).1.map Predator.energy).sum
      - 80 * (((predEatPass preds bs E0).2.card : ℚ))
    = (preds.map Predator.energy).sum - 80 * (E0.card : ℚ) := by
    have h := (predEatPass_go bs preds ([], E0)).2
    simpa [predEatPass] using h
  refine ⟨hsub, ?_, ?_⟩
  · have hle : E0.card ≤ (predEatPass preds bs E0).2.card :=
      Finset.card_le_card hsub
    have hcard : ((((predEatPass preds bs E0).2 \ E0).card : ℚ))
        = (((predEatPass preds bs E0).2.card : ℚ)) - (E0.card : ℚ) := by
      rw [Finset.card_sdiff hsub, Nat.cast_sub hle]
    rw [hcard]
    linarith [hsum]
  · intro p b
    simp [predEat, predEatStep]

/-- Lemma: `swap_remove` on a tail commutes with `cons`. -/
theorem swapRemove_cons_succ (a : Bacterium) (t : List Bacterium) (i : ℕ)
    (ht : t ≠ []) : swapRemove (a :: t) (i + 1) = a :: swapRemove t i := by
  obtain ⟨b, t', rfl⟩ : ∃ b t', t = b :: t' := by
    cases t with
    | nil => exact absurd rfl ht
    | cons b t' => exact ⟨b, t', rfl⟩
  have hx : (b :: t').getLast? = some ((b :: t').getLast (by simp)) :=
    List.getLast?_eq_getLast_of_ne_nil (by simp)
  simp only [swapRemove, List.getLast?_cons_cons, hx]
  cases i <;> rfl

/-- Lemma: `swap_remove` at an in-bounds index is a permutation of deleting that
index. -/
theorem swapRemove_perm (l : List Bacterium) (i : ℕ) (h : i < l.length) :
    (swapRemove l i).Perm (l.eraseIdx i) := by
  induction l generalizing i with
  | nil => simp at h
  | cons a t iht =>
    cases i with
    | zero =>
      cases t with
      | nil => simp [swapRemove]
      | cons b t' =>
        have hx : (a :: b :: t').getLast?
            = some ((b :: t').getLast (by simp)) := by
          rw [List.getLast?_cons_cons]
          exact List.getLast?_eq_getLast_of_ne_nil (by simp)
        simp only [swapRemove, hx, List.eraseIdx_cons_zero]
        show ((b :: t').getLast (by simp) :: (b :: t')).dropLast.Perm _
        show ((b :: t').getLast (by simp) :: (b :: t').dropLast).Perm _
        refine (List.perm_append_singleton _ _).symm.trans ?_
        rw [List.dropLast_append_getLast]
    | succ i' =>
      have ht : t ≠ [] := by
        intro hnil
        subst hnil
        simp at h
      rw [swapRemove_cons_succ a t i' ht, List.eraseIdx_cons_succ]
      exact (iht i' (by simpa using h)).cons a

/-- Multiset effect of one in-bounds `swap_remove`: exactly the element at
the removed index disappears. -/
theorem swapRemove_toMultiset (l : List Bacterium) (i : ℕ)
    (h : i < l.length) :
    ((swapRemove l i : List Bacterium) : Multiset Bacterium)
      = (l : Multiset Bacterium) - {l.getD i default} := by
  rw [Multiset.coe_eq_coe.mpr ((swapRemove_perm l i h).trans
    (List.erase_getElem h).symm)]
  rw [List.getD_eq_getElem l default h, ← Multiset.coe_erase,
    Multiset.sub_singleton]

/-- Lemma: `swap_remove` shortens the list by one. -/
theorem swapRemove_length (l : List Bacterium) (i : ℕ) (h : i < l.length) :
    (swapRemove l i).length = l.length - 1 := by
  rw [(swapRemove_perm l i h).length_eq]
  have := List.length_eraseIdx_add_one h
  omega

/-- Lemma: `swap_remove` leaves all positions below the removed index unchanged. -/
theorem swapRemove_getD_lt (l : List Bacterium) (i j : ℕ)
    (hi : i < l.length) (hj : j < i) :
    (swapRemove l i).getD j default = l.getD j default := by
  have hlen : (swapRemove l i).length = l.length - 1 :=
    swapRemove_length l i hi
  have hjlen : j < (swapRemove l i).length := by omega
  have hl : l ≠ [] := by
    intro hnil
    subst hnil
    simp at hi
  have hx : l.getLast? = some (l.getLast hl) :=
    List.getLast?_eq_getLast_of_ne_nil hl
  have hsw : swapRemove l i = (l.set i (l.getLast hl)).dropLast := by
    simp only [swapRemove, hx]
  rw [List.getD_eq_getElem _ default hjlen,
    List.getD_eq_getElem _ default (by omega)]
  simp only [hsw]
  rw [List.getElem_dropLast]
  exact List.getElem_set_ne (by omega) (by simp only [List.length_set]; omega)

/-- Multiset effect of the whole descending `swap_remove` sweep: exactly the
elements sitting at the in-bounds removed indices disappear (strictly
descending order guarantees that every index still refers to its original
element when it is processed). -/
theorem foldSwap_toMultiset (is : List ℕ) (l : List Bacterium)
    (hpw : is.Pairwise (· > ·)) :
    ((List.foldl (fun l i => if i < l.length then swapRemove l i else l)
        l is : List Bacterium) : Multiset Bacterium)
      = (l : Multiset Bacterium)
        - ((is.filter (fun i => i < l.length)).map
            (fun i => l.getD i default) : Multiset Bacterium) := by
  induction is generalizing l with
  | nil => simp
  | cons i rest ih =>
    have hrest : rest.Pairwise (· > ·) := hpw.of_cons
    have hgt : ∀ j ∈ rest, i > j := (List.pairwise_cons.mp hpw).1
    rw [List.foldl_cons]
    by_cases hi : i < l.length
    · rw [if_pos hi]
      have hlen : (swapRemove l i).length = l.length - 1 :=
        swapRemove_length l i hi
      have hfilter1 : rest.filter
          (fun j => decide (j < (swapRemove l i).length)) = rest := by
        apply List.filter_eq_self.mpr
        intro j hj
        have := hgt j hj
        simp only [decide_eq_true_eq]
        omega
      have hfilter2 : rest.filter (fun j => decide (j < l.length)) = rest := by
        apply List.filter_eq_self.mpr
        intro j hj
        have := hgt j hj
        simp only [decide_eq_true_eq]
        omega
      have hmap : rest.map (fun j => (swapRemove l i).getD j default)
          = rest.map (fun j => l.getD j default) :=
        List.map_congr_left
          (fun j hj => swapRemove_getD_lt l i j hi (hgt j hj))
      rw [ih (swapRemove l i) hrest, hfilter1, hmap,
        swapRemove_toMultiset l i hi,
        List.filter_cons_of_pos (by simpa using hi), hfilter2,
        List.map_cons, tsub_tsub]
      rw [← Multiset.cons_coe, ← Multiset.singleton_add]
    · rw [if_neg hi, ih l hrest,
        List.filter_cons_of_neg (by simpa using hi)]

/-- Commit-phase removal: a prey whose in-bounds index is in the eaten-prey
set loses one occurrence in the surviving list. -/
theorem removeEaten_count_lt (bs : List Bacterium) (S : Finset ℕ) (idx : ℕ)
    (hidx : idx < bs.length) (hS : idx ∈ S) :
    Multiset.count (bs.getD idx default)
        (removeEaten bs S : Multiset Bacterium)
      < Multiset.count (bs.getD idx default) (bs : Multiset Bacterium) := by
  have hpw : ((S.sort (· ≤ ·)).reverse).Pairwise (· > ·) := by
    rw [List.pairwise_reverse]
    exact S.sort_sorted_lt
  unfold removeEaten
  rw [foldSwap_toMultiset ((S.sort (· ≤ ·)).reverse) bs hpw,
    Multiset.count_sub]
  have hmem : idx ∈ ((S.sort (· ≤ ·)).reverse).filter
      (fun i => i < bs.length) := by
    simp [List.mem_filter, List.mem_reverse, Finset.mem_sort, hS, hidx]
  have hv : bs.getD idx default ∈ (((S.sort (· ≤ ·)).reverse).filter
      (fun i => i < bs.length)).map (fun i => bs.getD i default) :=
    List.mem_map_of_mem _ hmem
  have h1 : 1 ≤ Multiset.count (bs.getD idx default)
      ((((S.sort (· ≤ ·)).reverse).filter (fun i => i < bs.length)).map
        (fun i => bs.getD i default) : Multiset Bacterium) :=
    Multiset.one_le_count_iff_mem.mpr (Multiset.mem_coe.mpr hv)
  have h2 : 1 ≤ Multiset.count (bs.getD idx default)
      (bs : Multiset Bacterium) := by
    refine Multiset.one_le_count_iff_mem.mpr (Multiset.mem_coe.mpr ?_)
    rw [List.getD_eq_getElem bs default hidx]
    exact List.getElem_mem hidx
  omega

/-- The predator-contact loop of the per-prey pass hits exactly when some
predator is within lethal radius. -/
theorem isEaten_iff (preds : List Predator) (b : Bacterium) :
    isEaten preds b = true
      ↔ ∃ p ∈ preds, distSq b.pos p.pos < (p.size + b.dna.size) ^ 2 := by
  simp [isEaten]

/-- C2: death pre-empts reproduction.  A prey within lethal radius of some
predator during the per-prey pass has its index inserted into the eaten-prey
set while its state and the pending-births buffer are left untouched — it
emits no offspring that tick regardless of its energy — and the commit
phase's descending `swap_remove` sweep removes it from the prey list. -/
theorem c2_death_preempts (preds : List Predator) (params : SimulationParams)
    (d : MutDraws) (eatenPrey : Finset ℕ) (births : List Bacterium)
    (bs : List Bacterium) (idx : ℕ) (S : Finset ℕ)
    (hidx : idx < bs.length)
    (hlethal : ∃ p ∈ preds, distSq (bs.getD idx default).pos p.pos
        < (p.size + (bs.getD idx default).dna.size) ^ 2)
    (hS : idx ∈ S) :
    deathRepro preds params d idx (bs.getD idx default) eatenPrey births
      = some (bs.getD idx default, insert idx eatenPrey, births) ∧
    Multiset.count (bs.getD idx default)
        (removeEaten bs S : Multiset Bacterium)
      < Multiset.count (bs.getD idx default) (bs : Multiset Bacterium) := by
  refine ⟨?_, removeEaten_count_lt bs S idx hidx hS⟩
  have he : isEaten preds (bs.getD idx default) = true :=
    (isEaten_iff preds _).mpr hlethal
  simp only [deathRepro, he]
  norm_num

/-- Witness for `c2_death_preempts`: one predator at the origin, one prey of
energy 100 sitting on it (distance 0 < (12 + 5)²), marked index 0. -/
theorem c2_death_preempts_witness :
    (0 < ([bact1] : List Bacterium).length) ∧
    (∃ p ∈ [pred0], distSq (([bact1] : List Bacterium).getD 0 default).pos
        p.pos
      < (p.size + (([bact1] : List Bacterium).getD 0 default).dna.size) ^ 2) ∧
    0 ∈ ({0} : Finset ℕ) ∧
    (deathRepro [pred0] params0 drawsQuiet 0
        (([bact1] : List Bacterium).getD 0 default) ∅ []
      = some (([bact1] : List Bacterium).getD 0 default, insert 0 ∅, []) ∧
    Multiset.count (([bact1] : List Bacterium).getD 0 default)
        (removeEaten [bact1] {0} : Multiset Bacterium)
      < Multiset.count (([bact1] : List Bacterium).getD 0 default)
        ([bact1] : Multiset Bacterium)) := by
  have hlethal : ∃ p ∈ [pred0],
      distSq (([bact1] : List Bacterium).getD 0 default).pos p.pos
        < (p.size + (([bact1] : List Bacterium).getD 0 default).dna.size)
            ^ 2 := by
    refine ⟨pred0, by simp, ?_⟩
    norm_num [distSq, bact1, pred0]
  exact ⟨by norm_num, hlethal, by simp,
    c2_death_preempts [pred0] params0 drawsQuiet ∅ [] [bact1] 0 {0}
      (by norm_num) hlethal (by simp)⟩

/-- C6: reproduction math.  A prey that is not eaten, with energy 200 and
reproduction threshold 150, halves its energy to 100 and emits exactly one
offspring whose energy is the parent's halved energy 100, whose age is 0,
whose position is the parent's current position, whose genome is the
parent's mutated genome, and whose velocity is the negation of the parent's
velocity. -/
theorem c6_reproduction_math (preds : List Predator)
    (params : SimulationParams) (d : MutDraws) (idx : ℕ) (b : Bacterium)
    (eatenPrey : Finset ℕ) (births : List Bacterium) (g : DNA)
    (hnot : isEaten preds b = false)
    (he : b.energy = 200) (hth : params.reproduction_threshold = 150)
    (hmut : b.dna.mutate params d = some g) :
    deathRepro preds params d idx b eatenPrey births
      = some ({ b with energy := 100 }, eatenPrey,
          births ++ [⟨b.pos, vneg b.vel, g, 100, 0⟩]) := by
  simp only [deathRepro, hnot, he, hth, hmut]
  norm_num

/-- Witness for `c6_reproduction_math`: no predators, a prey of energy 200,
the default parameters (threshold 150), quiet draws. -/
theorem c6_reproduction_math_witness :
    isEaten [] bactRepro = false ∧
    bactRepro.energy = 200 ∧
    params0.reproduction_threshold = 150 ∧
    DNA.mutate bactRepro.dna params0 drawsQuiet = some bactRepro.dna ∧
    deathRepro [] params0 drawsQuiet 0 bactRepro ∅ []
      = some ({ bactRepro with energy := 100 }, ∅,
          [] ++ [⟨bactRepro.pos, vneg bactRepro.vel, bactRepro.dna,
            100, 0⟩]) := by
  have hmut : DNA.mutate bactRepro.dna params0 drawsQuiet
      = some bactRepro.dna := by
    norm_num [DNA.mutate, genBool, genRange, fclamp, bactRepro, params0,
      drawsQuiet]
  exact ⟨rfl, rfl, rfl, hmut,
    c6_reproduction_math [] params0 drawsQuiet 0 bactRepro ∅ []
      bactRepro.dna rfl rfl rfl hmut⟩

/-- C5: extinction failsafe.  When the prey list is empty after eaten-prey
removal, offspring append, and energy pruning, the commit phase ends with
exactly 10 freshly randomized prey, each carrying the configured initial
energy (and age 0); the predator list is always just the pruned
append — there is no predator reseed, so a tick that ends with zero
predators leaves the predator list empty. -/
theorem c5_extinction_failsafe (food : List Vec2)
    (bacteria : List Bacterium) (predators : List Predator)
    (eatenFood eatenPrey : Finset ℕ) (preyBirths : List Bacterium)
    (predBirths : List Predator) (params : SimulationParams)
    (fresh : ℕ → FreshDraws)
    (hdead : (removeEaten bacteria eatenPrey ++ preyBirths).filter
        (fun b => decide (b.energy > 0)) = []) :
    (commitPhase food bacteria predators eatenFood eatenPrey preyBirths
        predBirths params fresh).2.1
      = (List.range 10).map
          (fun k => Bacterium.new (fresh k) params.initial_energy) ∧
    (commitPhase food bacteria predators eatenFood eatenPrey preyBirths
        predBirths params fresh).2.1.length = 10 ∧
    (∀ b ∈ (commitPhase food bacteria predators eatenFood eatenPrey
        preyBirths predBirths params fresh).2.1,
      b.energy = params.initial_energy ∧ b.age = 0) ∧
    (commitPhase food bacteria predators eatenFood eatenPrey preyBirths
        predBirths params fresh).2.2
      = (predators ++ predBirths).filter (fun p => decide (p.energy > 0)) ∧
    ((predators ++ predBirths).filter (fun p => decide (p.energy > 0)) = [] →
      (commitPhase food bacteria predators eatenFood eatenPrey preyBirths
        predBirths params fresh).2.2 = []) := by
  have hmain : (commitPhase food bacteria predators eatenFood eatenPrey
      preyBirths predBirths params fresh).2.1
    = (List.range 10).map
        (fun k => Bacterium.new (fresh k) params.initial_energy) := by
    simp only [commitPhase, hdead, List.isEmpty_nil, if_true]
  have hpred : (commitPhase food bacteria predators eatenFood eatenPrey
      preyBirths predBirths params fresh).2.2
    = (predators ++ predBirths).filter (fun p => decide (p.energy > 0)) :=
    rfl
  refine ⟨hmain, ?_, ?_, hpred, fun h => hpred.trans h⟩
  · rw [hmain]
    simp
  · intro b hb
    rw [hmain] at hb
    simp only [List.mem_map, List.mem_range] at hb
    obtain ⟨k, -, rfl⟩ := hb
    exact ⟨rfl, rfl⟩

/-- Witness for `c5_extinction_failsafe`: the empty tick — no prey, no
predators, nothing pending — reseeds exactly 10 prey at the configured
initial energy and leaves the predator list empty. -/
theorem c5_extinction_failsafe_witness :
    (removeEaten [] ∅ ++ ([] : List Bacterium)).filter
        (fun b => decide (b.energy > 0)) = [] ∧
    (commitPhase [] [] [] ∅ ∅ [] [] params0 (fun _ => freshSample)).2.1
      = (List.range 10).map
          (fun _ => Bacterium.new freshSample params0.initial_energy) ∧
    (commitPhase [] [] [] ∅ ∅ [] [] params0
        (fun _ => freshSample)).2.1.length = 10 ∧
    (∀ b ∈ (commitPhase [] [] [] ∅ ∅ [] [] params0
        (fun _ => freshSample)).2.1,
      b.energy = params0.initial_energy ∧ b.age = 0) ∧
    (commitPhase [] [] [] ∅ ∅ [] [] params0 (fun _ => freshSample)).2.2
      = [] := by
  have hdead : (removeEaten [] ∅ ++ ([] : List Bacterium)).filter
      (fun b => decide (b.energy > 0)) = [] := by
    simp [removeEaten]
  obtain ⟨h1, h2, h3, h4, h5⟩ := c5_extinction_failsafe [] [] [] ∅ ∅ [] []
    params0 (fun _ => freshSample) hdead
  exact ⟨hdead, h1, h2, h3, h4.trans (by simp)⟩

/-- The capped-food half of claim C9 fails as stated: with ceiling 2 and
growth rate 2, a standing count of 1 is below the ceiling, so 2 items are
appended and the count 3 exceeds `max_food` — the source checks the ceiling
before appending and never caps the result. -/
theorem c9_counterexample : ¬ FoodNeverExceedsMax := by
  intro h
  have ht := h [(0, 0)] paramsTwoMax (fun _ => (0, 0))
  norm_num [foodGrowth, toAdd, paramsTwoMax] at ht
  omega

/-- C9 (amended): the growth step appends exactly
`floor(food_growth_rate)` items (at the drawn positions) if and only if the
standing food count is below `max_food`, and leaves the food list unchanged
otherwise; the resulting count is `count + floor(rate)` in the first case,
which may exceed `max_food`. -/
theorem c9_food_growth (food : List Vec2) (params : SimulationParams)
    (fresh : ℕ → Vec2) :
    (food.length < params.max_food →
      foodGrowth food params fresh
        = food ++ (List.range (toAdd params.food_growth_rate)).map fresh ∧
      (foodGrowth food params fresh).length
        = food.length + toAdd params.food_growth_rate) ∧
    (params.max_food ≤ food.length →
      foodGrowth food params fresh = food) := by
  constructor
  · intro h
    unfold foodGrowth
    rw [if_pos h]
    simp
  · intro h
    unfold foodGrowth
    rw [if_neg (not_lt.mpr h)]

/-- Witness for `c9_food_growth`: one standing food item, default ceiling
1000 and rate 2, so exactly two items are appended. -/
theorem c9_food_growth_witness :
    ([((0 : ℚ), (0 : ℚ))] : List Vec2).length < params0.max_food ∧
    (foodGrowth [(0, 0)] params0 (fun _ => (0, 0))
        = [(0, 0)] ++ (List.range (toAdd params0.food_growth_rate)).map
            (fun _ => (0, 0)) ∧
      (foodGrowth [(0, 0)] params0 (fun _ => (0, 0))).length
        = [((0 : ℚ), (0 : ℚ))].length + toAdd params0.food_growth_rate) := by
  have h : ([((0 : ℚ), (0 : ℚ))] : List Vec2).length < params0.max_food := by
    norm_num [params0]
  exact ⟨h, (c9_food_growth [(0, 0)] params0 (fun _ => (0, 0))).1 h⟩

/-- One scan step returns the `nearest_dist = MAX` initial state only if it
started there and the scanned prey is out of sense range. -/
theorem scanStep_eq_none {ppos : Vec2R} {sense : ℝ}
    {st : Option (ℝ × Vec2R)} {b : BacteriumR} :
    scanStep ppos sense st b = none ↔
      st = none ∧ ¬ distR ppos b.pos < sense := by
  cases st with
  | none =>
    have hred : scanStep ppos sense none b
        = if distR ppos b.pos < sense then some (distR ppos b.pos, b.pos)
          else none := rfl
    rw [hred]
    split_ifs with h <;> simp [h]
  | some nd =>
    have hred : scanStep ppos sense (some nd) b
        = if distR ppos b.pos < sense ∧ distR ppos b.pos < nd.1 then
            some (distR ppos b.pos, b.pos)
          else some nd := rfl
    rw [hred]
    split_ifs with h <;> simp

/-- One scan step either keeps its candidate or adopts the scanned prey
(which is then within sense range). -/
theorem scanStep_some_cases {ppos : Vec2R} {sense : ℝ}
    {st : Option (ℝ × Vec2R)} {b : BacteriumR} {q : ℝ × Vec2R}
    (h : scanStep ppos sense st b = some q) :
    st = some q
      ∨ (q = (distR ppos b.pos, b.pos) ∧ distR ppos b.pos < sense) := by
  cases st with
  | none =>
    have hred : scanStep ppos sense none b
        = if distR ppos b.pos < sense then some (distR ppos b.pos, b.pos)
          else none := rfl
    rw [hred] at h
    split_ifs at h with hd
    exact Or.inr ⟨(Option.some.inj h).symm, hd⟩
  | some nd =>
    have hred : scanStep ppos sense (some nd) b
        = if distR ppos b.pos < sense ∧ distR ppos b.pos < nd.1 then
            some (distR ppos b.pos, b.pos)
          else some nd := rfl
    rw [hred] at h
    split_ifs at h with hd
    · exact Or.inr ⟨(Option.some.inj h).symm, hd.1⟩
    · exact Or.inl (by rw [Option.some.inj h])

/-- One scan step never increases the candidate distance, and its result is
no farther than the scanned prey whenever that prey is in sense range. -/
theorem scanStep_min {ppos : Vec2R} {sense : ℝ} {st : Option (ℝ × Vec2R)}
    {b : BacteriumR} {q : ℝ × Vec2R}
    (h : scanStep ppos sense st b = some q) :
    (∀ p, st = some p → q.1 ≤ p.1) ∧
    (distR ppos b.pos < sense → q.1 ≤ distR ppos b.pos) := by
  cases st with
  | none =>
    have hred : scanStep ppos sense none b
        = if distR ppos b.pos < sense then some (distR ppos b.pos, b.pos)
          else none := rfl
    rw [hred] at h
    split_ifs at h with hd
    obtain rfl : (distR ppos b.pos, b.pos) = q := Option.some.inj h
    exact ⟨fun p hp => by simp at hp, fun _ => le_refl _⟩
  | some nd =>
    have hred : scanStep ppos sense (some nd) b
        = if distR ppos b.pos < sense ∧ distR ppos b.pos < nd.1 then
            some (distR ppos b.pos, b.pos)
          else some nd := rfl
    rw [hred] at h
    split_ifs at h with hd
    · obtain rfl : (distR ppos b.pos, b.pos) = q := Option.some.inj h
      refine ⟨fun p hp => ?_, fun _ => le_refl _⟩
      obtain rfl : nd = p := Option.some.inj hp
      exact le_of_lt hd.2
    · obtain rfl : nd = q := Option.some.inj h
      refine ⟨fun p hp => ?_, fun hlt => ?_⟩
      · obtain rfl := Option.some.inj hp
        exact le_refl _
      · exact le_of_not_lt (not_and.mp hd hlt)

/-- The scan returns no target iff it started with none and no scanned prey
is within sense range. -/
theorem scanFold_none (ppos : Vec2R) (sense : ℝ) (bs : List BacteriumR) :
    ∀ st, List.foldl (scanStep ppos sense) st bs = none ↔
      st = none ∧ ∀ b ∈ bs, ¬ distR ppos b.pos < sense := by
  induction bs with
  | nil =>
    intro st
    simp
  | cons b tl ih =>
    intro st
    rw [List.foldl_cons, ih (scanStep ppos sense st b), scanStep_eq_none]
    constructor
    · rintro ⟨⟨h1, h2⟩, h3⟩
      refine ⟨h1, fun b' hb' => ?_⟩
      rcases List.mem_cons.mp hb' with rfl | hmem
      · exact h2
      · exact h3 _ hmem
    · rintro ⟨rfl, hall⟩
      exact ⟨⟨rfl, hall b (List.mem_cons_self b tl)⟩,
        fun b' hb' => hall b' (List.mem_cons_of_mem _ hb')⟩

/-- The scan's result distance is minimal: no larger than the initial
candidate and no larger than any in-range scanned prey's distance. -/
theorem scanFold_min (ppos : Vec2R) (sense : ℝ) (bs : List BacteriumR) :
    ∀ st r, List.foldl (scanStep ppos sense) st bs = some r →
      (∀ p, st = some p → r.1 ≤ p.1) ∧
      (∀ b ∈ bs, distR ppos b.pos < sense → r.1 ≤ distR ppos b.pos) := by
  induction bs with
  | nil =>
    intro st r h
    rw [List.foldl_nil] at h
    subst h
    exact ⟨fun p hp => by cases Option.some.inj hp; exact le_refl _,
      by simp⟩
  | cons b tl ih =>
    intro st r h
    rw [List.foldl_cons] at h
    obtain ⟨ih1, ih2⟩ := ih (scanStep ppos sense st b) r h
    constructor
    · intro p hp
      have hne : scanStep ppos sense st b ≠ none := by
        rw [Ne, scanStep_eq_none]
        rintro ⟨h1, -⟩
        rw [hp] at h1
        simp at h1
      obtain ⟨q, hq⟩ := Option.ne_none_iff_exists'.mp hne
      exact le_trans (ih1 q hq) ((scanStep_min hq).1 p hp)
    · intro b' hb' hd'
      rcases List.mem_cons.mp hb' with rfl | hmem
      · have hne : scanStep ppos sense st b' ≠ none := by
          rw [Ne, scanStep_eq_none]
          rintro ⟨-, hnd⟩
          exact hnd hd'
        obtain ⟨q, hq⟩ := Option.ne_none_iff_exists'.mp hne
        exact le_trans (ih1 q hq) ((scanStep_min hq).2 hd')
      · exact ih2 b' hmem hd'

/-- A scan target is either the initial candidate or some scanned prey's
position within sense range. -/
theorem scanFold_mem (ppos : Vec2R) (sense : ℝ) (bs : List BacteriumR) :
    ∀ st r, List.foldl (scanStep ppos sense) st bs = some r →
      st = some r
        ∨ ∃ b ∈ bs, r = (distR ppos b.pos, b.pos) ∧ r.1 < sense := by
  induction bs with
  | nil =>
    intro st r h
    rw [List.foldl_nil] at h
    exact Or.inl h
  | cons b tl ih =>
    intro st r h
    rw [List.foldl_cons] at h
    rcases ih _ r h with hst | ⟨b', hmem, hr⟩
    · rcases scanStep_some_cases hst with h1 | h2
      · exact Or.inl h1
      · exact Or.inr ⟨b, List.mem_cons_self b tl, h2.1,
          by rw [h2.1]; exact h2.2⟩
    · exact Or.inr ⟨b', List.mem_cons_of_mem _ hmem, hr⟩

/-- Lemma: `scanNearest` finds no target iff no prey is within the sense radius. -/
theorem scanNearest_eq_none_iff (ppos : Vec2R) (sense : ℝ)
    (bs : List BacteriumR) :
    scanNearest ppos sense bs = none
      ↔ ∀ b ∈ bs, ¬ distR ppos b.pos < sense := by
  unfold scanNearest
  rw [scanFold_none]
  simp

/-- A `scanNearest` target is the position of an in-range prey of minimal
distance among the in-range prey. -/
theorem scanNearest_eq_some (ppos : Vec2R) (sense : ℝ)
    (bs : List BacteriumR) (r : ℝ × Vec2R)
    (h : scanNearest ppos sense bs = some r) :
    ∃ b ∈ bs, r = (distR ppos b.pos, b.pos) ∧ r.1 < sense ∧
      ∀ b' ∈ bs, distR ppos b'.pos < sense →
        r.1 ≤ distR ppos b'.pos := by
  unfold scanNearest at h
  rcases scanFold_mem ppos sense bs none r h with h1 | ⟨b, hb, hr, hs⟩
  · simp at h1
  · exact ⟨b, hb, hr, hs,
      fun b' hb' hd' => (scanFold_min ppos sense bs none r h).2 b' hb' hd'⟩

/-- Claim C8 fails as stated: with an empty prey list no prey is within the
sense radius, yet the source skips the whole hunting block — the velocity is
left unchanged instead of jittered.  At heading `(1, 0)` and draw `0.1` the
jittered heading has second component `sin 0.1 > 0 = (1, 0).2`. -/
theorem c8_counterexample : ¬ JitterWheneverNoPrey := by
  intro h
  have ht := h ⟨(0, 0), (1, 0), 150, 5/2, 12, 100⟩ [] (1/10)
    (by norm_num) (by norm_num) (by simp)
  have h1 : huntSteer ⟨(0, 0), (1, 0), 150, 5/2, 12, 100⟩ [] (1/10)
      = ((1 : ℝ), (0 : ℝ)) := by
    simp [huntSteer]
  have h2 : (jitterVec ((1 : ℝ), (0 : ℝ)) (1/10)).2 = Real.sin (1/10) := by
    simp only [jitterVec, atan2]
    norm_num [Real.arctan_zero]
  have h3 : (0 : ℝ) < Real.sin (1/10) :=
    Real.sin_pos_of_pos_of_lt_pi (by norm_num)
      (by linarith [Real.pi_gt_three])
  rw [h1] at ht
  have hsnd := congrArg Prod.snd ht
  rw [h2] at hsnd
  simp only at hsnd
  linarith [hsnd ▸ h3]

/-- C8 (amended): when the prey list is nonempty but no prey lies within the
sense radius, the predator's heading is jittered by the drawn angle; when
some prey lies within the sense radius, the predator blends toward a
nearest in-range prey at weight `0.3` and renormalizes.  (When the prey list
is empty, the source skips the block and the velocity is unchanged — see
`c8_counterexample`.) -/
theorem c8_predator_steering (p : PredatorR) (bs : List BacteriumR)
    (δ : ℝ) :
    (bs ≠ [] → (∀ b ∈ bs, ¬ distR p.pos b.pos < p.sense_radius) →
      huntSteer p bs δ = jitterVec p.vel δ) ∧
    ((∃ b ∈ bs, distR p.pos b.pos < p.sense_radius) →
      ∃ b ∈ bs, distR p.pos b.pos < p.sense_radius ∧
        (∀ b' ∈ bs, distR p.pos b'.pos < p.sense_radius →
          distR p.pos b.pos ≤ distR p.pos b'.pos) ∧
        huntSteer p bs δ = blendToward p.vel p.pos b.pos) := by
  constructor
  · intro hne hnone
    unfold huntSteer
    rw [if_neg (by simpa using hne),
      (scanNearest_eq_none_iff p.pos p.sense_radius bs).mpr hnone]
  · rintro ⟨b0, hb0, hd0⟩
    have hne : bs ≠ [] := by
      rintro rfl
      simp at hb0
    have hnotnone : scanNearest p.pos p.sense_radius bs ≠ none := by
      rw [Ne, scanNearest_eq_none_iff]
      intro hall
      exact hall b0 hb0 hd0
    obtain ⟨r, hscan⟩ := Option.ne_none_iff_exists'.mp hnotnone
    obtain ⟨b, hb, hr, hrs, hmin⟩ :=
      scanNearest_eq_some p.pos p.sense_radius bs r hscan
    refine ⟨b, hb, ?_, ?_, ?_⟩
    · rw [hr] at hrs
      exact hrs
    · intro b' hb' hd'
      have := hmin b' hb' hd'
      rw [hr] at this
      exact this
    · unfold huntSteer
      rw [if_neg (by simpa using hne), hscan]
      rw [hr]

/-- Witness for `c8_predator_steering`: one prey at distance 500, sense
radius 100 — out of range, so the jitter branch is taken. -/
theorem c8_predator_steering_witness :
    ([bactR8] ≠ ([] : List BacteriumR)) ∧
    (∀ b ∈ [bactR8], ¬ distR predR8.pos b.pos < predR8.sense_radius) ∧
    huntSteer predR8 [bactR8] (1/10) = jitterVec predR8.vel (1/10) := by
  have hdist : distR predR8.pos bactR8.pos = 500 := by
    show Real.sqrt _ = _
    rw [show ((predR8.pos.1 - bactR8.pos.1) ^ 2
        + (predR8.pos.2 - bactR8.pos.2) ^ 2 : ℝ) = 500 ^ 2 by
      norm_num [predR8, bactR8]]
    exact Real.sqrt_sq (by norm_num)
  have hnone : ∀ b ∈ [bactR8], ¬ distR predR8.pos b.pos
      < predR8.sense_radius := by
    intro b hb
    rw [List.mem_singleton.mp hb, hdist]
    norm_num [predR8]
  exact ⟨by simp, hnone,
    (c8_predator_steering predR8 [bactR8] (1/10)).1 (by simp) hnone⟩

end BactSim

